import Mathlib

/-!
Shallow embedding of `CinosBeverageSystem.py`: a `Drink` with one optional
base and a set of flavors, and an `Order` holding a list of drinks, with a
flat-rate total and a formatted receipt.

Python exceptions are modelled by returning the post-state together with an
optional error: a raised exception leaves the object in whatever state it had
reached at the raise site, so every mutator has type `State → Input → State ×
Option BevErr`.  The Python `set` of flavors is modelled as a duplicate-free
list in insertion order (`set.add` appends a fresh element; iteration order of
a Python set is arbitrary, and the list order is one such order).
-/

set_option autoImplicit false

namespace Cinos

/-- The distinct error conditions raised by the system, one per `raise` site:
`ValueError` for an already-set base, `ValueError` for a value outside the
valid enumeration, `ValueError` for a duplicate flavor, `TypeError` for a
non-`Drink` argument to `add_item`, and `IndexError` for a bad removal index. -/
inductive BevErr where
  | alreadySet
  | invalidValue
  | duplicate
  | typeMismatch
  | outOfRange
  deriving DecidableEq, Repr

/-- `class Drink`: `_base` starts as `None`, `_flavors` starts as the empty
set (here: the empty duplicate-free list). -/
structure Drink where
  base : Option String
  flavors : List String
  deriving DecidableEq, Repr

namespace Drink

/-- `Drink._valid_bases`. -/
def valid_bases : List String :=
  ["water", "sbrite", "pokeacola", "Mr. Salt", "hill fog", "leaf wine"]

/-- `Drink._valid_flavors`. -/
def valid_flavors : List String :=
  ["lemon", "cherry", "strawberry", "mint", "blueberry", "lime"]

/-- `Drink.__init__`: no base, no flavors. -/
def new : Drink := { base := none, flavors := [] }

/-- `Drink.get_base`. -/
def get_base (d : Drink) : Option String := d.base

/-- `Drink.get_flavors`: `list(self._flavors)`, a snapshot of the set. -/
def get_flavors (d : Drink) : List String := d.flavors

/-- `Drink.get_num_flavors`: `len(self._flavors)`. -/
def get_num_flavors (d : Drink) : Nat := d.flavors.length

/-- `Drink.add_base`: raises if a base is already set, then if the value is
not a valid base; otherwise assigns it. -/
def add_base (d : Drink) (b : String) : Drink × Option BevErr :=
  if d.base.isSome then (d, some .alreadySet)
  else if b ∉ valid_bases then (d, some .invalidValue)
  else ({ d with base := some b }, none)

/-- `Drink.add_flavor`: raises if the value is not a valid flavor, then if it
is already present; otherwise inserts it into the set. -/
def add_flavor (d : Drink) (f : String) : Drink × Option BevErr :=
  if f ∉ valid_flavors then (d, some .invalidValue)
  else if f ∈ d.flavors then (d, some .duplicate)
  else ({ d with flavors := d.flavors ++ [f] }, none)

/-- The `for flavor in flavors: self.add_flavor(flavor)` loop of
`Drink.set_flavors`: adds each element in order, stopping at the first
`add_flavor` failure and keeping the state reached so far. -/
def addEach (d : Drink) : List String → Drink × Option BevErr
  | [] => (d, none)
  | f :: fs =>
    match add_flavor d f with
    | (d', none) => addEach d' fs
    | (d', some e) => (d', some e)

/-- `Drink.set_flavors`: `self._flavors.clear()` then the `add_flavor` loop. -/
def set_flavors (d : Drink) (fs : List String) : Drink × Option BevErr :=
  addEach { d with flavors := [] } fs

end Drink

/-- A Python value that a caller may pass to `Order.add_item`: either an
actual `Drink` instance or some other object (represented by a string, as in
the spec's `add_item("not a drink")` example).  Only the `drink` constructor
passes the `isinstance(drink, Drink)` check. -/
inductive PyVal where
  | drink (d : Drink)
  | str (s : String)
  deriving DecidableEq, Repr

/-- `class Order`: `_items` starts as the empty list. -/
structure Order where
  items : List Drink
  deriving DecidableEq, Repr

namespace Order

/-- `Order.__init__`. -/
def new : Order := { items := [] }

/-- `Order.get_items`: the (internal) list of drinks. -/
def get_items (o : Order) : List Drink := o.items

/-- `Order.get_num_items`: `len(self._items)`. -/
def get_num_items (o : Order) : Nat := o.items.length

/-- `price_per_drink = 5.00` in `Order.get_total`.  The Python float `5.00`
and the products `n * 5.00` for any in-memory list length are exact, so the
value is modelled as the exact rational it denotes. -/
def price_per_drink : ℚ := 5

/-- `Order.get_total`: `len(self._items) * price_per_drink`, recomputed from
the current items on every call. -/
def get_total (o : Order) : ℚ := (o.items.length : ℚ) * price_per_drink

/-- Rendering of a value in a Python f-string slot: `None` prints as the
four-letter text `"None"`, a string prints as itself.  Used for
`{drink.get_base()}` in `Order.get_receipt`. -/
def pyStr : Option String → String
  | none => "None"
  | some s => s

/-- `', '.join(drink.get_flavors()) or 'None'`: the comma-joined flavor list,
with the empty join (a falsy value in Python) replaced by `"None"`. -/
def joinedFlavors (fs : List String) : String :=
  if String.intercalate ", " fs = "" then "None" else String.intercalate ", " fs

/-- A two-digit rendering of a number below 100, as `"%02d"` would give. -/
def pad2 (n : Nat) : String :=
  if n < 10 then "0" ++ toString n else toString n

/-- `f"{amount:.2f}"` for the amounts this program produces: a non-negative
rational that is an exact multiple of one cent, rendered with exactly two
digits after the decimal point. -/
def money2 (q : ℚ) : String :=
  toString ((q * 100).num.toNat / 100) ++ "." ++ pad2 ((q * 100).num.toNat % 100)

/-- One body line of the receipt:
`f"{idx}. Base: {drink.get_base()}, Flavors: {', '.join(drink.get_flavors()) or 'None'}"`. -/
def receiptLine (idx : Nat) (d : Drink) : String :=
  toString idx ++ ". Base: " ++ pyStr d.get_base ++ ", Flavors: " ++ joinedFlavors d.get_flavors

/-- The `for idx, drink in enumerate(self._items, 1)` loop of
`Order.get_receipt`: one numbered line per drink, numbering from `i`. -/
def receiptLines (i : Nat) : List Drink → List String
  | [] => []
  | d :: ds => receiptLine i d :: receiptLines (i + 1) ds

/-- `Order.get_receipt`: the fixed empty-order message when there are no
items, otherwise the header, the numbered drink lines, the total-drinks line
and the total-cost line, joined by newlines. -/
def get_receipt (o : Order) : String :=
  if o.items.isEmpty then "Order is empty. Add some drinks!"
  else
    String.intercalate "\n"
      (["--- Order Receipt ---"] ++ receiptLines 1 o.items ++
        ["Total Drinks: " ++ toString o.get_num_items,
         "Total Cost: $" ++ money2 o.get_total])

/-- `Order.add_item`: raises `TypeError` unless the argument is a `Drink`
instance, otherwise appends it to the item list. -/
def add_item (o : Order) (x : PyVal) : Order × Option BevErr :=
  match x with
  | .drink d => ({ items := o.items ++ [d] }, none)
  | .str _ => (o, some .typeMismatch)

/-- `Order.remove_item`: raises `IndexError` when the index is negative or at
least the current length, otherwise `self._items.pop(index)` removes the
element at that position.  The index is an arbitrary Python integer. -/
def remove_item (o : Order) (index : ℤ) : Order × Option BevErr :=
  if index < 0 ∨ (o.items.length : ℤ) ≤ index then (o, some .outOfRange)
  else ({ items := o.items.eraseIdx index.toNat }, none)

end Order

/-- The drink states reachable through the public interface: a fresh drink,
and the result state of any `add_base`, `add_flavor` or `set_flavors` call,
whether it succeeds or fails. -/
inductive DrinkReachable : Drink → Prop where
  | init : DrinkReachable Drink.new
  | addBase (d : Drink) (b : String) :
      DrinkReachable d → DrinkReachable (Drink.add_base d b).1
  | addFlavor (d : Drink) (f : String) :
      DrinkReachable d → DrinkReachable (Drink.add_flavor d f).1
  | setFlavors (d : Drink) (fs : List String) :
      DrinkReachable d → DrinkReachable (Drink.set_flavors d fs).1

/-- The `Drink` invariant of the spec: the base is unset or one of the six
valid bases, every flavor is one of the six valid flavors, and the flavor
set holds no duplicates. -/
def DrinkInv (d : Drink) : Prop :=
  (∀ b, d.base = some b → b ∈ Drink.valid_bases) ∧
  (∀ f ∈ d.flavors, f ∈ Drink.valid_flavors) ∧
  d.flavors.Nodup

end Cinos

namespace Cinos

/-- The dollar total of an order of `n` drinks renders with exactly two
digits after the decimal point, both of them zero. -/
theorem money2_natMul_five (n : ℕ) :
    Order.money2 ((n : ℚ) * 5) = toString (5 * n) ++ "." ++ "00" := by
  have h : ((n : ℚ) * 5) * 100 = ((500 * n : ℕ) : ℚ) := by push_cast; ring
  rw [Order.money2, h, Rat.num_natCast, Int.toNat_natCast]
  have h3 : 500 * n / 100 = 5 * n := by omega
  have h4 : 500 * n % 100 = 0 := by omega
  rw [h3, h4]
  rfl

/-! ### Helper lemmas about the flavor-adding loop -/

/-- The loop of `set_flavors` never touches the base, and the flavors it
produces do not depend on the base: the run from base `b` is the run from no
base with `b` put back. -/
theorem addEach_congr_base (fs : List String) :
    ∀ (b : Option String) (l : List String),
      Drink.addEach { base := b, flavors := l } fs =
        (({ base := b,
            flavors := (Drink.addEach { base := none, flavors := l } fs).1.flavors } : Drink),
          (Drink.addEach { base := none, flavors := l } fs).2) := by
  induction fs with
  | nil => intro b l; simp [Drink.addEach]
  | cons f fs ih =>
    intro b l
    by_cases hv : f ∈ Drink.valid_flavors
    · by_cases hm : f ∈ l
      · simp [Drink.addEach, Drink.add_flavor, hv, hm]
      · simpa [Drink.addEach, Drink.add_flavor, hv, hm] using ih b (l ++ [f])
    · simp [Drink.addEach, Drink.add_flavor, hv]

/-- The loop of `set_flavors` never changes the base. -/
theorem addEach_fst_base (d : Drink) (fs : List String) :
    (Drink.addEach d fs).1.base = d.base := by
  obtain ⟨b, l⟩ := d
  rw [addEach_congr_base]

/-- Full characterisation of the flavor-adding loop: some prefix `p` of the
input is appended to the existing flavors, every element of `p` is valid,
fresh, and distinct from the others, the loop succeeds exactly when `p` is
the whole input, and otherwise it stops at the first offending element with
the corresponding error. -/
theorem addEach_spec (fs : List String) :
    ∀ (d : Drink), ∃ p rest,
      fs = p ++ rest ∧
      (Drink.addEach d fs).1 = { d with flavors := d.flavors ++ p } ∧
      (∀ f ∈ p, f ∈ Drink.valid_flavors) ∧
      p.Nodup ∧
      (∀ f ∈ p, f ∉ d.flavors) ∧
      ((Drink.addEach d fs).2 = none ↔ rest = []) ∧
      (∀ f rs, rest = f :: rs →
        (f ∉ Drink.valid_flavors ∧ (Drink.addEach d fs).2 = some BevErr.invalidValue) ∨
        (f ∈ d.flavors ++ p ∧ (Drink.addEach d fs).2 = some BevErr.duplicate)) := by
  induction fs with
  | nil =>
    intro d
    exact ⟨[], [], by simp, by simp [Drink.addEach], by simp, by simp, by simp,
      by simp [Drink.addEach], by simp⟩
  | cons f fs ih =>
    intro d
    by_cases hv : f ∈ Drink.valid_flavors
    · by_cases hm : f ∈ d.flavors
      · refine ⟨[], f :: fs, by simp, ?_, by simp, by simp, by simp, ?_, ?_⟩
        · simp [Drink.addEach, Drink.add_flavor, hv, hm]
        · simp [Drink.addEach, Drink.add_flavor, hv, hm]
        · intro g rs hrest
          injection hrest with h1 h2
          subst h1
          right
          exact ⟨by simpa using hm, by simp [Drink.addEach, Drink.add_flavor, hv, hm]⟩
      · have step : Drink.addEach d (f :: fs) =
            Drink.addEach { d with flavors := d.flavors ++ [f] } fs := by
          simp [Drink.addEach, Drink.add_flavor, hv, hm]
        obtain ⟨p, rest, hfs, hst, hval, hnd, hfresh, herr, hrest⟩ :=
          ih { d with flavors := d.flavors ++ [f] }
        refine ⟨f :: p, rest, by simp [hfs], ?_, ?_, ?_, ?_, ?_, ?_⟩
        · rw [step, hst]; simp
        · intro g hg
          rcases List.mem_cons.mp hg with rfl | hg
          · exact hv
          · exact hval g hg
        · refine List.nodup_cons.mpr ⟨?_, hnd⟩
          intro hfp
          exact hfresh f hfp (by simp)
        · intro g hg
          rcases List.mem_cons.mp hg with rfl | hg
          · exact hm
          · intro hgd
            exact hfresh g hg (by simp [hgd])
        · rw [step]; exact herr
        · intro g rs hr
          rw [step]
          rcases hrest g rs hr with ⟨h1, h2⟩ | ⟨h1, h2⟩
          · exact Or.inl ⟨h1, h2⟩
          · exact Or.inr ⟨by simpa using h1, h2⟩
    · refine ⟨[], f :: fs, by simp, ?_, by simp, by simp, by simp, ?_, ?_⟩
      · simp [Drink.addEach, Drink.add_flavor, hv]
      · simp [Drink.addEach, Drink.add_flavor, hv]
      · intro g rs hrest
        injection hrest with h1 h2
        subst h1
        exact Or.inl ⟨hv, by simp [Drink.addEach, Drink.add_flavor, hv]⟩

/-! ### Helper lemmas about `String.intercalate` and the receipt lines -/

theorem intercalate_go_acc (s : String) (as : List String) :
    ∀ acc₁ acc₂ : String,
      String.intercalate.go (acc₁ ++ acc₂) s as = acc₁ ++ String.intercalate.go acc₂ s as := by
  induction as with
  | nil => intro acc₁ acc₂; rfl
  | cons a as ih =>
    intro acc₁ acc₂
    show String.intercalate.go (acc₁ ++ acc₂ ++ s ++ a) s as =
      acc₁ ++ String.intercalate.go (acc₂ ++ s ++ a) s as
    have h : acc₁ ++ acc₂ ++ s ++ a = acc₁ ++ (acc₂ ++ s ++ a) := by
      simp only [String.append_assoc]
    rw [h]
    exact ih acc₁ (acc₂ ++ s ++ a)

theorem intercalate_cons_ne (s x : String) (xs : List String) (h : xs ≠ []) :
    String.intercalate s (x :: xs) = x ++ s ++ String.intercalate s xs := by
  obtain ⟨y, ys, rfl⟩ : ∃ y ys, xs = y :: ys := by
    cases xs with
    | nil => exact absurd rfl h
    | cons y ys => exact ⟨y, ys, rfl⟩
  show String.intercalate.go (x ++ s ++ y) s ys = x ++ s ++ String.intercalate.go y s ys
  exact intercalate_go_acc s ys (x ++ s) y

theorem intercalate_append_pair (s a b : String) (xs : List String) (h : xs ≠ []) :
    String.intercalate s (xs ++ [a, b]) =
      String.intercalate s xs ++ s ++ a ++ s ++ b := by
  induction xs with
  | nil => exact absurd rfl h
  | cons x xs ih =>
    cases xs with
    | nil =>
      show String.intercalate.go (x ++ s ++ a ++ s ++ b) s [] = _
      rfl
    | cons y ys =>
      rw [List.cons_append, intercalate_cons_ne s x _ (by simp),
        intercalate_cons_ne s x (y :: ys) (by simp), ih (by simp)]
      simp [String.append_assoc]

theorem receiptLines_length (ds : List Drink) :
    ∀ i : Nat, (Order.receiptLines i ds).length = ds.length := by
  induction ds with
  | nil => intro i; rfl
  | cons d ds ih => intro i; simp [Order.receiptLines, ih]

theorem receiptLines_ne_nil (i : Nat) (d : Drink) (ds : List Drink) :
    Order.receiptLines i (d :: ds) ≠ [] := by
  simp [Order.receiptLines]

theorem receiptLines_getElem? (ds : List Drink) :
    ∀ i k : Nat, (Order.receiptLines i ds)[k]? = ds[k]?.map (fun d => Order.receiptLine (i + k) d) := by
  induction ds with
  | nil => intro i k; simp [Order.receiptLines]
  | cons d ds ih =>
    intro i k
    cases k with
    | zero => simp [Order.receiptLines]
    | succ k =>
      have h := ih (i + 1) k
      simp only [Order.receiptLines, List.getElem?_cons_succ, h]
      have : i + 1 + k = i + (k + 1) := by omega
      rw [this]

/-! ### Claim theorems -/

/-- C2: `add_base` fails with AlreadySet whenever a base is already assigned,
regardless of the value; with no base assigned it fails with InvalidValue on a
value outside the six valid bases, leaving the drink unchanged, and otherwise
assigns the value as the base; after a successful assignment every further
call fails with AlreadySet and leaves the base unchanged. -/
theorem add_base_spec (d : Drink) (b : String) :
    (d.base ≠ none → Drink.add_base d b = (d, some BevErr.alreadySet)) ∧
    (d.base = none → b ∉ Drink.valid_bases →
      Drink.add_base d b = (d, some BevErr.invalidValue)) ∧
    (d.base = none → b ∈ Drink.valid_bases →
      Drink.add_base d b = ({ d with base := some b }, none)) ∧
    (d.base = none → b ∈ Drink.valid_bases → ∀ b',
      Drink.add_base (Drink.add_base d b).1 b' =
        ((Drink.add_base d b).1, some BevErr.alreadySet)) := by
  refine ⟨?_, ?_, ?_, ?_⟩
  · intro h
    simp [Drink.add_base, Option.isSome_iff_ne_none, h]
  · intro h hb
    simp [Drink.add_base, h, hb]
  · intro h hb
    simp [Drink.add_base, h, hb]
  · intro h hb b'
    have h1 : Drink.add_base d b = ({ d with base := some b }, none) := by
      simp [Drink.add_base, h, hb]
    rw [h1]
    simp [Drink.add_base]

/-- Witness for C2 at concrete drinks: a second call fails with AlreadySet, a
first call with a valid base succeeds, and an invalid base is rejected. -/
theorem add_base_spec_witness :
    Drink.add_base { base := some "water", flavors := [] } "sbrite" =
        ({ base := some "water", flavors := [] }, some BevErr.alreadySet) ∧
      Drink.add_base Drink.new "water" = ({ base := some "water", flavors := [] }, none) ∧
      Drink.add_base Drink.new "cola" = (Drink.new, some BevErr.invalidValue) :=
  ⟨(add_base_spec { base := some "water", flavors := [] } "sbrite").1 (by simp),
   (add_base_spec Drink.new "water").2.2.1 rfl (by decide),
   (add_base_spec Drink.new "cola").2.1 rfl (by decide)⟩

/-- C3: `add_flavor` fails with InvalidValue on a value outside the six valid
flavors, fails with Duplicate on a value already present (leaving the flavor
count unchanged), and otherwise inserts the value, increasing the flavor
count by exactly 1. -/
theorem add_flavor_spec (d : Drink) (f : String) :
    (f ∉ Drink.valid_flavors → Drink.add_flavor d f = (d, some BevErr.invalidValue)) ∧
    (f ∈ Drink.valid_flavors → f ∈ d.flavors →
      Drink.add_flavor d f = (d, some BevErr.duplicate) ∧
      Drink.get_num_flavors (Drink.add_flavor d f).1 = Drink.get_num_flavors d) ∧
    (f ∈ Drink.valid_flavors → f ∉ d.flavors →
      Drink.add_flavor d f = ({ d with flavors := d.flavors ++ [f] }, none) ∧
      Drink.get_num_flavors (Drink.add_flavor d f).1 = Drink.get_num_flavors d + 1) := by
  refine ⟨?_, ?_, ?_⟩
  · intro h
    simp [Drink.add_flavor, h]
  · intro h1 h2
    constructor
    · simp [Drink.add_flavor, h1, h2]
    · simp [Drink.add_flavor, h1, h2]
  · intro h1 h2
    constructor
    · simp [Drink.add_flavor, h1, h2]
    · simp [Drink.add_flavor, Drink.get_num_flavors, h1, h2]

/-- Witness for C3 at concrete drinks: an unknown flavor is rejected, a
repeated flavor raises Duplicate with the count unchanged, and a fresh valid
flavor is inserted with the count going up by 1. -/
theorem add_flavor_spec_witness :
    Drink.add_flavor Drink.new "vanilla" = (Drink.new, some BevErr.invalidValue) ∧
      (Drink.add_flavor { base := none, flavors := ["lemon"] } "lemon" =
          ({ base := none, flavors := ["lemon"] }, some BevErr.duplicate) ∧
        Drink.get_num_flavors
            (Drink.add_flavor { base := none, flavors := ["lemon"] } "lemon").1 =
          Drink.get_num_flavors { base := none, flavors := ["lemon"] }) ∧
      (Drink.add_flavor Drink.new "lemon" =
          ({ base := none, flavors := ["lemon"] }, none) ∧
        Drink.get_num_flavors (Drink.add_flavor Drink.new "lemon").1 =
          Drink.get_num_flavors Drink.new + 1) :=
  ⟨(add_flavor_spec Drink.new "vanilla").1 (by decide),
   (add_flavor_spec { base := none, flavors := ["lemon"] } "lemon").2.1 (by decide) (by decide),
   (add_flavor_spec Drink.new "lemon").2.2 (by decide) (by decide)⟩

/-- C7: `remove_item` fails with OutOfRange exactly when the integer index is
negative or at least the current count — in particular at `-1` and at the
count itself — and otherwise removes exactly the element at that position,
the later elements shifting down to close the gap. -/
theorem remove_item_spec (o : Order) (index : ℤ) :
    (index < 0 ∨ (o.items.length : ℤ) ≤ index →
      Order.remove_item o index = (o, some BevErr.outOfRange)) ∧
    (0 ≤ index → index < (o.items.length : ℤ) →
      Order.remove_item o index =
        ({ items := o.items.take index.toNat ++ o.items.drop (index.toNat + 1) }, none)) ∧
    (Order.remove_item o (-1)).2 = some BevErr.outOfRange ∧
    (Order.remove_item o ((o.items.length : ℤ))).2 = some BevErr.outOfRange := by
  refine ⟨?_, ?_, ?_, ?_⟩
  · intro h
    simp only [Order.remove_item]
    rw [if_pos h]
  · intro h1 h2
    have hc : ¬(index < 0 ∨ (o.items.length : ℤ) ≤ index) := by omega
    simp only [Order.remove_item]
    rw [if_neg hc, List.eraseIdx_eq_take_drop_succ]
  · simp [Order.remove_item]
  · simp [Order.remove_item]

/-- Witness for C7 at concrete orders: removing index 0 from a two-item order
keeps exactly the second item, and index 1 is out of range on a one-item
order. -/
theorem remove_item_spec_witness :
    Order.remove_item { items := [{ base := some "water", flavors := [] }, Drink.new] } 0 =
        ({ items := [Drink.new] }, none) ∧
      Order.remove_item { items := [Drink.new] } 1 =
        ({ items := [Drink.new] }, some BevErr.outOfRange) :=
  ⟨(remove_item_spec { items := [{ base := some "water", flavors := [] }, Drink.new] } 0).2.1
      (by decide) (by decide),
   (remove_item_spec { items := [Drink.new] } 1).1 (by decide)⟩

/-- C8: `add_item` fails with TypeMismatch on a non-Drink argument leaving
the items unchanged, and appends a Drink argument at the end of the item
sequence, preserving the existing items in order. -/
theorem add_item_spec (o : Order) (x : PyVal) :
    (∀ s, x = PyVal.str s → Order.add_item o x = (o, some BevErr.typeMismatch)) ∧
    (∀ d, x = PyVal.drink d → Order.add_item o x = ({ items := o.items ++ [d] }, none)) := by
  constructor
  · intro s h
    subst h
    rfl
  · intro d h
    subst h
    rfl

/-- Witness for C8: `add_item("not a drink")` fails with TypeMismatch and
leaves the order unchanged, while adding a drink appends it. -/
theorem add_item_spec_witness :
    Order.add_item Order.new (PyVal.str "not a drink") =
        (Order.new, some BevErr.typeMismatch) ∧
      Order.add_item Order.new (PyVal.drink Drink.new) = ({ items := [Drink.new] }, none) :=
  ⟨(add_item_spec Order.new (PyVal.str "not a drink")).1 "not a drink" rfl,
   (add_item_spec Order.new (PyVal.drink Drink.new)).2 Drink.new rfl⟩

/-- C4: the total is always the item count times 5.00, computed from the
current items (the function is a pure function of the order), with exact
arithmetic: an empty order totals 0.00 and a 3-drink order totals 15.00. -/
theorem get_total_spec (o : Order) :
    Order.get_total o = (Order.get_num_items o : ℚ) * 5 ∧
    (Order.get_num_items o = 0 → Order.get_total o = 0) ∧
    (Order.get_num_items o = 3 → Order.get_total o = 15) := by
  refine ⟨rfl, ?_, ?_⟩
  · intro h
    have h' : o.items.length = 0 := h
    norm_num [Order.get_total, Order.price_per_drink, h']
  · intro h
    have h' : o.items.length = 3 := h
    norm_num [Order.get_total, Order.price_per_drink, h']

/-- Witness for C4: the empty order and a concrete 3-drink order. -/
theorem get_total_spec_witness :
    Order.get_total Order.new = 0 ∧
      Order.get_total { items := [Drink.new, Drink.new, Drink.new] } = 15 :=
  ⟨(get_total_spec Order.new).2.1 rfl,
   (get_total_spec { items := [Drink.new, Drink.new, Drink.new] }).2.2 rfl⟩

/-- C1: `set_flavors` clears the current flavors and then adds the input
elements in order with `add_flavor` validation: some prefix of the input
(valid, duplicate-free) becomes the whole flavor set, the call succeeds
exactly when that prefix is the entire input, and otherwise it fails at the
first offending element, keeping the elements added before it (no rollback).
Concretely, `["lemon","lemon"]` ends with Duplicate and flavor set
`{"lemon"}`, and `["lemon","cherry"]` on a drink holding `"mint"` ends with
exactly `{"lemon","cherry"}`. -/
theorem set_flavors_spec (d : Drink) (fs : List String) :
    (∃ p rest, fs = p ++ rest ∧
      (Drink.set_flavors d fs).1 = { base := d.base, flavors := p } ∧
      (∀ f ∈ p, f ∈ Drink.valid_flavors) ∧ p.Nodup ∧
      ((Drink.set_flavors d fs).2 = none ↔ rest = []) ∧
      (∀ f rs, rest = f :: rs →
        (f ∉ Drink.valid_flavors ∧ (Drink.set_flavors d fs).2 = some BevErr.invalidValue) ∨
        (f ∈ p ∧ (Drink.set_flavors d fs).2 = some BevErr.duplicate))) ∧
    Drink.set_flavors d ["lemon", "lemon"] =
      ({ base := d.base, flavors := ["lemon"] }, some BevErr.duplicate) ∧
    Drink.set_flavors { base := d.base, flavors := ["mint"] } ["lemon", "cherry"] =
      ({ base := d.base, flavors := ["lemon", "cherry"] }, none) := by
  refine ⟨?_, ?_, ?_⟩
  · obtain ⟨p, rest, hfs, hst, hval, hnd, hfresh, herr, hrest⟩ :=
      addEach_spec fs { d with flavors := [] }
    refine ⟨p, rest, hfs, ?_, hval, hnd, herr, ?_⟩
    · show (Drink.addEach { d with flavors := [] } fs).1 = _
      rw [hst]
      simp
    · intro f rs hr
      rcases hrest f rs hr with ⟨h1, h2⟩ | ⟨h1, h2⟩
      · exact Or.inl ⟨h1, h2⟩
      · exact Or.inr ⟨by simpa using h1, h2⟩
  · show Drink.addEach { d with flavors := [] } ["lemon", "lemon"] = _
    rw [addEach_congr_base ["lemon", "lemon"] d.base []]
    rfl
  · show Drink.addEach { base := d.base, flavors := [] } ["lemon", "cherry"] = _
    rw [addEach_congr_base ["lemon", "cherry"] d.base []]
    rfl

/-- Witness for C1 at a concrete drink: the two concrete `set_flavors`
scenarios from the spec, starting from a drink that already holds "mint". -/
theorem set_flavors_spec_witness :
    Drink.set_flavors Drink.new ["lemon", "lemon"] =
        ({ base := none, flavors := ["lemon"] }, some BevErr.duplicate) ∧
      Drink.set_flavors { base := none, flavors := ["mint"] } ["lemon", "cherry"] =
        ({ base := none, flavors := ["lemon", "cherry"] }, none) :=
  ⟨(set_flavors_spec Drink.new []).2.1, (set_flavors_spec Drink.new []).2.2⟩

/-- C5: the receipt of an empty order is the fixed empty-order message;
otherwise the receipt is the header line, one line per drink numbered from 1
in insertion order of the form
`"<n>. Base: <base or None>, Flavors: <comma-joined flavors or None>"`, then
the total-items line and the total-cost line with exactly two decimal
digits, all joined by newlines. -/
theorem get_receipt_spec (o : Order) :
    (o.items = [] → Order.get_receipt o = "Order is empty. Add some drinks!") ∧
    (o.items ≠ [] →
      Order.get_receipt o =
        "--- Order Receipt ---" ++ "\n" ++
          String.intercalate "\n" (Order.receiptLines 1 o.items) ++ "\n" ++
          ("Total Drinks: " ++ toString (Order.get_num_items o)) ++ "\n" ++
          ("Total Cost: $" ++ (toString (5 * Order.get_num_items o) ++ "." ++ "00"))) ∧
    (Order.receiptLines 1 o.items).length = o.items.length ∧
    (∀ k d, o.items[k]? = some d →
      (Order.receiptLines 1 o.items)[k]? =
        some (toString (k + 1) ++ ". Base: " ++ Order.pyStr d.base ++ ", Flavors: " ++
          Order.joinedFlavors d.flavors)) := by
  refine ⟨?_, ?_, receiptLines_length o.items 1, ?_⟩
  · intro h
    simp [Order.get_receipt, h]
  · intro h
    obtain ⟨d, ds, hitems⟩ : ∃ d ds, o.items = d :: ds := by
      cases hl : o.items with
      | nil => exact absurd hl h
      | cons d ds => exact ⟨d, ds, rfl⟩
    have hne : Order.receiptLines 1 o.items ≠ [] := by
      rw [hitems]
      exact receiptLines_ne_nil 1 d ds
    have hmoney : Order.money2 (Order.get_total o) =
        toString (5 * Order.get_num_items o) ++ "." ++ "00" := by
      have ht : Order.get_total o = ((Order.get_num_items o : ℕ) : ℚ) * 5 := rfl
      rw [ht, money2_natMul_five]
    have hempty : o.items.isEmpty = false := by
      rw [hitems]
      rfl
    rw [Order.get_receipt, hempty]
    simp only [Bool.false_eq_true, if_false]
    have hlist :
        (["--- Order Receipt ---"] ++ Order.receiptLines 1 o.items ++
            ["Total Drinks: " ++ toString o.get_num_items,
             "Total Cost: $" ++ Order.money2 o.get_total]) =
          "--- Order Receipt ---" ::
            (Order.receiptLines 1 o.items ++
              ["Total Drinks: " ++ toString o.get_num_items,
               "Total Cost: $" ++ Order.money2 o.get_total]) := by
      simp
    rw [hlist, intercalate_cons_ne _ _ _ (by simp [hne]),
      intercalate_append_pair _ _ _ _ hne, hmoney]
    simp [String.append_assoc]
  · intro k d hk
    rw [receiptLines_getElem? o.items 1 k, hk]
    simp [Order.receiptLine, Order.pyStr, Drink.get_base, Drink.get_flavors, Nat.add_comm]

/-- Witness for C5: the receipt of the empty order, and the full receipt of a
one-drink order. -/
theorem get_receipt_spec_witness :
    Order.get_receipt Order.new = "Order is empty. Add some drinks!" ∧
      Order.get_receipt { items := [Drink.new] } =
        "--- Order Receipt ---\n1. Base: None, Flavors: None\nTotal Drinks: 1\nTotal Cost: $5.00" := by
  constructor
  · exact (get_receipt_spec Order.new).1 rfl
  · have h := (get_receipt_spec { items := [Drink.new] }).2.1 (by simp)
    rw [h]
    decide

/-- C6: every reachable drink state satisfies the invariant; each operation,
succeeding or failing, preserves it. -/
theorem drink_invariant (d : Drink) (h : DrinkReachable d) : DrinkInv d := by
  induction h with
  | init =>
    exact ⟨by simp [Drink.new], by simp [Drink.new], by simp [Drink.new]⟩
  | addBase d b hd ih =>
    by_cases h1 : d.base.isSome
    · simpa [Drink.add_base, h1] using ih
    · by_cases h2 : b ∈ Drink.valid_bases
      · obtain ⟨i1, i2, i3⟩ := ih
        refine ⟨?_, ?_, ?_⟩
        · intro b' hb'
          simp [Drink.add_base, h1, h2] at hb'
          subst hb'
          exact h2
        · simpa [Drink.add_base, h1, h2] using i2
        · simpa [Drink.add_base, h1, h2] using i3
      · simpa [Drink.add_base, h1, h2] using ih
  | addFlavor d f hd ih =>
    by_cases h1 : f ∈ Drink.valid_flavors
    · by_cases h2 : f ∈ d.flavors
      · simpa [Drink.add_flavor, h1, h2] using ih
      · obtain ⟨i1, i2, i3⟩ := ih
        refine ⟨?_, ?_, ?_⟩
        · simpa [Drink.add_flavor, h1, h2] using i1
        · intro g hg
          simp [Drink.add_flavor, h1, h2] at hg
          rcases hg with hg | rfl
          · exact i2 g hg
          · exact h1
        · simp only [Drink.add_flavor, h1, h2]
          have hdisj : List.Disjoint d.flavors [f] := by
            intro a ha hb
            simp at hb
            subst hb
            exact h2 ha
          simpa using List.Nodup.append i3 (List.nodup_singleton f) hdisj
    · simpa [Drink.add_flavor, h1] using ih
  | setFlavors d fs hd ih =>
    obtain ⟨p, rest, hfs, hst, hval, hnd, hfresh, herr, hrest⟩ :=
      addEach_spec fs { d with flavors := [] }
    have hres : (Drink.set_flavors d fs).1 = { base := d.base, flavors := p } := by
      show (Drink.addEach { d with flavors := [] } fs).1 = _
      rw [hst]
      simp
    rw [hres]
    exact ⟨fun b hb => ih.1 b hb, hval, hnd⟩

/-- Witness for C6: the invariant holds at a state reached by a concrete
operation sequence (fresh drink, then `add_base "water"`). -/
theorem drink_invariant_witness : DrinkInv (Drink.add_base Drink.new "water").1 :=
  drink_invariant (Drink.add_base Drink.new "water").1
    (DrinkReachable.addBase Drink.new "water" DrinkReachable.init)

/-- C9: each mutator touches only its own field — `add_base` never changes
the flavor set, and `add_flavor` and `set_flavors` never change the base,
whether the call succeeds or fails. -/
theorem drink_frame_spec (d : Drink) (s : String) (fs : List String) :
    (Drink.add_base d s).1.flavors = d.flavors ∧
    (Drink.add_flavor d s).1.base = d.base ∧
    (Drink.set_flavors d fs).1.base = d.base := by
  refine ⟨?_, ?_, ?_⟩
  · simp only [Drink.add_base]
    split_ifs <;> rfl
  · simp only [Drink.add_flavor]
    split_ifs <;> rfl
  · show (Drink.addEach { d with flavors := [] } fs).1.base = d.base
    rw [addEach_fst_base]

/-- C10: a drink whose base was never set renders on the receipt with the
literal text `None` in the base slot — the same text that stands in for an
empty flavor list — both at the level of the numbered line for any position
in any order, and in the full receipt of a concrete order. -/
theorem receipt_unset_base_spec (d : Drink) (h : d.base = none) :
    (∀ n, Order.receiptLine n d =
      toString n ++ ". Base: " ++ "None" ++ ", Flavors: " ++
        Order.joinedFlavors d.flavors) ∧
    Order.joinedFlavors [] = "None" ∧
    Order.pyStr none = "None" ∧
    (∀ (o : Order) (k : Nat), o.items[k]? = some d →
      (Order.receiptLines 1 o.items)[k]? =
        some (toString (k + 1) ++ ". Base: " ++ "None" ++ ", Flavors: " ++
          Order.joinedFlavors d.flavors)) ∧
    Order.get_receipt { items := [{ base := none, flavors := [] }] } =
      "--- Order Receipt ---\n1. Base: None, Flavors: None\nTotal Drinks: 1\nTotal Cost: $5.00" := by
  refine ⟨?_, rfl, rfl, ?_, ?_⟩
  · intro n
    simp [Order.receiptLine, Order.pyStr, Drink.get_base, Drink.get_flavors, h]
  · intro o k hk
    rw [receiptLines_getElem? o.items 1 k, hk]
    simp [Order.receiptLine, Order.pyStr, Drink.get_base, Drink.get_flavors, h, Nat.add_comm]
  · have ht : Order.get_total { items := [({ base := none, flavors := [] } : Drink)] } =
        ((1 : ℕ) : ℚ) * 5 := by
      norm_num [Order.get_total, Order.price_per_drink]
    rw [Order.get_receipt, ht, money2_natMul_five]
    decide

/-- Witness for C10 at a concrete fresh drink in first position. -/
theorem receipt_unset_base_spec_witness :
    Order.receiptLine 1 { base := none, flavors := [] } = "1. Base: None, Flavors: None" := by
  have h := (receipt_unset_base_spec { base := none, flavors := [] } rfl).1 1
  rw [h]
  decide

end Cinos
